import Mathlib

/-!
Shallow embedding of the term-IR core of the Bend compiler
(`src/term/mod.rs`): identifier registry (`DefNames`), identifier
transcoding (`DefId::to_internal` / `from_internal`), base-26 display-name
derivation (`var_id_to_name`), the `Term` grammar together with its
substitution engine (`Term::subst`), the textual renderer
(`Term::to_string`), and the single-rule postcondition check
(`Definition::assert_no_pattern_matching_rules`).

Modelling conventions:
- Rust `Name` (a newtype over `String`) is modelled as `String`;
  `DefId` (a newtype over the 64-bit `Val`) is modelled as `Nat`,
  with the `mod 2 ^ 64` wrap made explicit where overflow can occur.
- The two `HashMap`s of `DefNames` are modelled as functions into
  `Option`, updated pointwise exactly as the Rust methods update them.
- Rust's in-place mutation is purified: `subst` returns the new term,
  `insert` / `remove` return the result paired with the new registry.
- A Rust panic (`unwrap`, `assert!`) is modelled as `none` in `Option`.
-/

namespace Bend

/-- `struct DefNames`: `id_to_name`, `name_to_id` hash maps and the
monotonic `id_count` counter (`mod.rs` lines 36-41). -/
structure DefNames where
  id_to_name : Nat → Option String
  name_to_id : String → Option Nat
  id_count : Nat

/-- `DefNames::new` / `Default`: both maps empty, counter at 0. -/
def DefNames.new : DefNames :=
  { id_to_name := fun _ => none, name_to_id := fun _ => none, id_count := 0 }

/-- `DefNames::name`: lookup in the id→name direction (line 218). -/
def DefNames.name (d : DefNames) (def_id : Nat) : Option String :=
  d.id_to_name def_id

/-- `DefNames::def_id`: lookup in the name→id direction (line 222). -/
def DefNames.def_id (d : DefNames) (name : String) : Option Nat :=
  d.name_to_id name

/-- `DefNames::contains_name` (line 226). -/
def DefNames.contains_name (d : DefNames) (name : String) : Bool :=
  (d.name_to_id name).isSome

/-- `DefNames::contains_def_id` (line 230). -/
def DefNames.contains_def_id (d : DefNames) (def_id : Nat) : Bool :=
  (d.id_to_name def_id).isSome

/-- `DefNames::insert` (lines 234-240): allocate `id_count`, bump the
counter, record both directions (overwriting any previous entry for the
same key), return the fresh id. -/
def DefNames.insert (d : DefNames) (name : String) : Nat × DefNames :=
  let def_id := d.id_count
  (def_id,
    { id_to_name := fun i => if i = def_id then some name else d.id_to_name i
      name_to_id := fun n => if n = name then some def_id else d.name_to_id n
      id_count := d.id_count + 1 })

/-- `DefNames::remove` (lines 242-248): remove the id→name entry; if it
was present with name `nam`, also remove the name→id entry for `nam`
(whatever id that entry currently points to); return the removed name. -/
def DefNames.remove (d : DefNames) (def_id : Nat) : Option String × DefNames :=
  match d.id_to_name def_id with
  | none => (none, d)
  | some nam =>
    (some nam,
      { id_to_name := fun i => if i = def_id then none else d.id_to_name i
        name_to_id := fun n => if n = nam then none else d.name_to_id n
        id_count := d.id_count })

/-- The registries reachable from a fresh registry by any sequence of
`insert` and `remove` operations. -/
inductive DefNames.Reachable : DefNames → Prop
  | new : DefNames.Reachable DefNames.new
  | insert (d : DefNames) (n : String) :
      DefNames.Reachable d → DefNames.Reachable (d.insert n).2
  | remove (d : DefNames) (i : Nat) :
      DefNames.Reachable d → DefNames.Reachable (d.remove i).2

/-- `DefId::to_internal` (line 182): `*self + 1` on the 64-bit `Val`,
with wraparound made explicit. -/
def DefId.to_internal (h : Nat) : Nat :=
  (h + 1) % 18446744073709551616

/-- `DefId::from_internal` (line 186): `val - 1` on the 64-bit `Val`,
with wraparound made explicit. -/
def DefId.from_internal (v : Nat) : Nat :=
  (v + 18446744073709551616 - 1) % 18446744073709551616

/-- The digit loop of `var_id_to_name` (lines 161-172): push
`var_id % 26` as a letter, divide by 26, stop when the quotient is 0
(a do-while loop, so index 0 still yields one digit). Digits come out
least-significant first. -/
def var_id_to_name_go (v : Nat) : List Char :=
  let c := Char.ofNat (v % 26 + 97)
  if h : v / 26 = 0 then [c] else c :: var_id_to_name_go (v / 26)
termination_by v
decreasing_by
  exact Nat.div_lt_self (Nat.pos_of_ne_zero (fun hv => h (by simp [hv]))) (by norm_num)

/-- `var_id_to_name` (lines 161-172): the base-26 display name of an
index. -/
def var_id_to_name (var_id : Nat) : String :=
  String.mk (var_id_to_name_go var_id)

/-- `enum LetPat` (lines 124-128). -/
inductive LetPat where
  | var (nam : String)
  | tup (fst snd : Option String)
deriving Repr, DecidableEq

/-- `enum Op` (lines 130-147). -/
inductive Op where
  | ADD | SUB | MUL | DIV | MOD | EQ | NE | LT | GT
  | AND | OR | XOR | NOT | LSH | RSH
deriving Repr, DecidableEq

/-- `enum Term` (lines 63-122). -/
inductive Term where
  | lam (nam : Option String) (bod : Term)
  | var (nam : String)
  | chn (nam : String) (bod : Term)
  | lnk (nam : String)
  | letT (pat : LetPat) (val : Term) (nxt : Term)
  | app (fn : Term) (arg : Term)
  | tup (fst snd : Term)
  | dup (fst snd : Option String) (val : Term) (nxt : Term)
  | sup (fst snd : Term)
  | num (val : Nat)
  | opx (op : Op) (fst snd : Term)
  | mtch (cond zero succ : Term)
  | ref (def_id : Nat)
  | era
deriving Repr, DecidableEq

/-- `Term::subst` (lines 312-364): replace free occurrences of variable
`frm` by `tgt`. Arm order and guards mirror the Rust `match` exactly:
a `Lam` whose bound name equals `frm` shadows; `Chn` always descends;
`Lnk`, `Ref`, `Num`, `Era` are untouched leaves; `Let` and `Dup`
always substitute the value and substitute the continuation only when
no bound name equals `frm` (absent names bind nothing). -/
def Term.subst (t : Term) (frm : String) (tgt : Term) : Term :=
  match t with
  | .lam (some nam) bod =>
    if nam = frm then .lam (some nam) bod
    else .lam (some nam) (bod.subst frm tgt)
  | .lam none bod => .lam none (bod.subst frm tgt)
  | .var nam => if nam = frm then tgt else .var nam
  | .chn nam bod => .chn nam (bod.subst frm tgt)
  | .lnk nam => .lnk nam
  | .letT (.var nam) val nxt =>
    .letT (.var nam) (val.subst frm tgt)
      (if nam ≠ frm then nxt.subst frm tgt else nxt)
  | .letT (.tup f s) val nxt =>
    .letT (.tup f s) (val.subst frm tgt)
      (if (f.all fun x => x != frm) && (s.all fun x => x != frm) then
        nxt.subst frm tgt
      else nxt)
  | .mtch cond zero succ =>
    .mtch (cond.subst frm tgt) (zero.subst frm tgt) (succ.subst frm tgt)
  | .ref def_id => .ref def_id
  | .app fn arg => .app (fn.subst frm tgt) (arg.subst frm tgt)
  | .dup f s val nxt =>
    .dup f s (val.subst frm tgt)
      (if (f.all fun x => x != frm) && (s.all fun x => x != frm) then
        nxt.subst frm tgt
      else nxt)
  | .sup fst snd => .sup (fst.subst frm tgt) (snd.subst frm tgt)
  | .era => .era
  | .num val => .num val
  | .opx op fst snd => .opx op (fst.subst frm tgt) (snd.subst frm tgt)
  | .tup fst snd => .tup (fst.subst frm tgt) (snd.subst frm tgt)

/-- `impl fmt::Display for Op` (lines 436-456). -/
def Op.to_string : Op → String
  | .ADD => "+"
  | .SUB => "-"
  | .MUL => "*"
  | .DIV => "/"
  | .MOD => "%"
  | .EQ => "=="
  | .NE => "!="
  | .LT => "<"
  | .GT => ">"
  | .AND => "&"
  | .OR => "|"
  | .XOR => "^"
  | .NOT => "~"
  | .LSH => "<<"
  | .RSH => ">>"

/-- `impl fmt::Display for LetPat` (lines 367-381): wildcard slots render
as `*`. -/
def LetPat.to_string : LetPat → String
  | .var nam => nam
  | .tup fst snd => "(" ++ fst.getD "*" ++ ", " ++ snd.getD "*" ++ ")"

/-- `Term::to_string` (lines 260-304). The `Ref` arm calls
`def_names.name(def_id).unwrap()`, a potential panic: the whole renderer
is therefore modelled in `Option`, with `none` standing for that panic.
The `Match` arm recovers the predecessor name and successor body from a
`Lam`-wrapped successor branch and falls back to an anonymous (`*`)
predecessor with the whole branch as body otherwise. -/
def Term.to_string (t : Term) (def_names : DefNames) : Option String :=
  match t with
  | .lam nam bod => do
    pure ("λ" ++ nam.getD "*" ++ " " ++ (← bod.to_string def_names))
  | .var nam => pure nam
  | .chn nam bod => do
    pure ("λ$" ++ nam ++ " " ++ (← bod.to_string def_names))
  | .lnk nam => pure ("$" ++ nam)
  | .letT pat val nxt => do
    pure ("let " ++ pat.to_string ++ " = " ++ (← val.to_string def_names) ++
      "; " ++ (← nxt.to_string def_names))
  | .ref def_id => do
    pure (← def_names.name def_id)
  | .app fn arg => do
    pure ("(" ++ (← fn.to_string def_names) ++ " " ++
      (← arg.to_string def_names) ++ ")")
  | .mtch cond zero (.lam nam bod) => do
    pure ("match " ++ (← cond.to_string def_names) ++ " \x7b 0: " ++
      (← zero.to_string def_names) ++ "; 1+" ++ nam.getD "*" ++ ": " ++
      (← bod.to_string def_names) ++ " \x7d")
  | .mtch cond zero succ => do
    pure ("match " ++ (← cond.to_string def_names) ++ " \x7b 0: " ++
      (← zero.to_string def_names) ++ "; 1+*: " ++
      (← succ.to_string def_names) ++ " \x7d")
  | .dup fst snd val nxt => do
    pure ("dup " ++ fst.getD "*" ++ " " ++ snd.getD "*" ++ " = " ++
      (← val.to_string def_names) ++ "; " ++ (← nxt.to_string def_names))
  | .sup fst snd => do
    pure ("\x7b" ++ (← fst.to_string def_names) ++ " " ++
      (← snd.to_string def_names) ++ "\x7d")
  | .era => pure "*"
  | .num val => pure (toString val)
  | .opx op fst snd => do
    pure ("(" ++ op.to_string ++ " " ++ (← fst.to_string def_names) ++ " " ++
      (← snd.to_string def_names) ++ ")")
  | .tup fst snd => do
    pure ("(" ++ (← fst.to_string def_names) ++ ", " ++
      (← snd.to_string def_names) ++ ")")

/-- `enum RulePat` (lines 57-61). -/
inductive RulePat where
  | var (nam : String)
  | ctr (nam : String) (pats : List RulePat)

/-- `struct Rule` (lines 51-55). -/
structure Rule where
  pats : List RulePat
  body : Term

/-- `struct Definition` (lines 44-48). -/
structure Definition where
  def_id : Nat
  rules : List Rule

/-- `Definition::assert_no_pattern_matching_rules` (lines 407-409):
`assert!(self.rules.len() == 1, ...)`. The `assert!` panic is modelled
as `none`; a normal return is `some ()`. -/
def Definition.assert_no_pattern_matching_rules (d : Definition) : Option Unit :=
  if d.rules.length = 1 then some () else none

/-- The consistency invariant maintained by `DefNames.insert` and
`DefNames.remove`: every name→id entry points to an id whose id→name
entry maps back to that name, and every allocated id is below the
counter. -/
def DefNames.Consistent (d : DefNames) : Prop :=
  (∀ n i, d.name_to_id n = some i → d.id_to_name i = some n) ∧
  (∀ n i, d.name_to_id n = some i → i < d.id_count)

/-- C1: substituting `frm ↦ tgt` leaves a `Lam` whose bound name equals
`frm` unchanged (shadowing), descends into the body of a `Lam` with a
different or absent bound name, replaces a `Var` named `frm` by `tgt`,
and leaves any other `Var` unchanged. -/
theorem subst_lam_var_spec (bod tgt : Term) (frm nam : String) :
    (Term.lam (some frm) bod).subst frm tgt = Term.lam (some frm) bod ∧
    ((Term.lam (some nam) bod).subst frm tgt =
      if nam = frm then Term.lam (some nam) bod
      else Term.lam (some nam) (bod.subst frm tgt)) ∧
    (Term.lam none bod).subst frm tgt = Term.lam none (bod.subst frm tgt) ∧
    (Term.var frm).subst frm tgt = tgt ∧
    ((Term.var nam).subst frm tgt =
      if nam = frm then tgt else Term.var nam) := by
  refine ⟨?_, rfl, rfl, ?_, rfl⟩ <;> simp [Term.subst]

/-- C2: substitution always descends into the body of a `Chn`
(scopeless binder), even when its bound name equals `frm`, and never
touches a `Lnk` (scopeless reference) leaf. -/
theorem subst_chn_lnk_spec (bod tgt : Term) (frm nam : String) :
    (Term.chn nam bod).subst frm tgt = Term.chn nam (bod.subst frm tgt) ∧
    (Term.chn frm bod).subst frm tgt = Term.chn frm (bod.subst frm tgt) ∧
    (Term.lnk nam).subst frm tgt = Term.lnk nam :=
  ⟨rfl, rfl, rfl⟩

/-- C3: on `Let` and `Dup`, substitution always rewrites the value and
rewrites the continuation exactly when `frm` differs from every bound
name of the pattern (for `Let`) or of the two optional binders (for
`Dup` and the pair `Let`). -/
theorem subst_let_dup_spec (tgt val nxt : Term) (frm nam : String)
    (f s : Option String) :
    ((Term.letT (.var nam) val nxt).subst frm tgt =
      Term.letT (.var nam) (val.subst frm tgt)
        (if nam = frm then nxt else nxt.subst frm tgt)) ∧
    ((Term.letT (.tup f s) val nxt).subst frm tgt =
      Term.letT (.tup f s) (val.subst frm tgt)
        (if f = some frm ∨ s = some frm then nxt else nxt.subst frm tgt)) ∧
    ((Term.dup f s val nxt).subst frm tgt =
      Term.dup f s (val.subst frm tgt)
        (if f = some frm ∨ s = some frm then nxt else nxt.subst frm tgt)) := by
  refine ⟨?_, ?_, ?_⟩ <;>
    rcases f with _ | a <;> rcases s with _ | b <;>
      simp only [Term.subst, Option.all_none, Option.all_some, ite_not,
        Bool.and_true, Bool.true_and, Bool.and_self, if_true] <;>
      first
        | rfl
        | (by_cases ha : a = frm <;> by_cases hb : b = frm <;>
            simp [ha, hb])
        | (by_cases ha : a = frm <;> simp [ha])
        | (by_cases hb : b = frm <;> simp [hb])

/-- C7: decoding the encoded form of a representable id returns the id:
`from_internal (to_internal h) = h` for every `h` in the 64-bit `Val`
range, where `to_internal` adds 1 and `from_internal` subtracts 1. -/
theorem from_internal_to_internal (h : Nat)
    (hh : h < 18446744073709551616) :
    DefId.from_internal (DefId.to_internal h) = h := by
  unfold DefId.to_internal DefId.from_internal
  omega

/-- Witness for C7 at `h = 5`. -/
theorem from_internal_to_internal_witness :
    5 < 18446744073709551616 ∧
      DefId.from_internal (DefId.to_internal 5) = 5 :=
  ⟨by norm_num, from_internal_to_internal 5 (by norm_num)⟩

/-- C9: `assert_no_pattern_matching_rules` aborts (returns `none`,
modelling the `assert!` panic) exactly when the definition's rule list
does not have exactly one rule. -/
theorem assert_no_pattern_matching_rules_spec (d : Definition) :
    d.assert_no_pattern_matching_rules = none ↔ d.rules.length ≠ 1 := by
  unfold Definition.assert_no_pattern_matching_rules
  split <;> simp_all

lemma var_id_to_name_go_zero : var_id_to_name_go 0 = ['a'] := by
  unfold var_id_to_name_go
  norm_num

lemma var_id_to_name_go_26 : var_id_to_name_go 26 = ['a', 'b'] := by
  unfold var_id_to_name_go
  norm_num
  unfold var_id_to_name_go
  norm_num

lemma var_id_to_name_go_head (v : Nat) :
    (var_id_to_name_go v).head? = some (Char.ofNat (v % 26 + 97)) := by
  unfold var_id_to_name_go
  split <;> rfl

/-- C6 counterexample: index 26 renders as `"ab"` (least-significant
digit first), not `"ba"` as the claim states. -/
theorem var_id_to_name_26_ne_ba : var_id_to_name 26 ≠ "ba" := by
  unfold var_id_to_name
  rw [var_id_to_name_go_26]
  decide

/-- C6 (amended): the base-26 derivation maps index 0 to `"a"` and
index 26 to `"ab"`, the digits coming out least-significant first over
`a`–`z` (the first character of the name is always digit `v % 26`). -/
theorem var_id_to_name_spec (v : Nat) :
    var_id_to_name 0 = "a" ∧ var_id_to_name 26 = "ab" ∧
      (var_id_to_name v).data.head? = some (Char.ofNat (v % 26 + 97)) := by
  refine ⟨?_, ?_, ?_⟩
  · unfold var_id_to_name
    rw [var_id_to_name_go_zero]
  · unfold var_id_to_name
    rw [var_id_to_name_go_26]
  · unfold var_id_to_name
    exact var_id_to_name_go_head v

/-- C8: rendering a `Match` whose successor branch is a `Lam` prints
the lambda's bound name as the predecessor and its body as the
successor body; rendering a `Match` whose successor branch is not a
`Lam` still succeeds, printing an anonymous `*` predecessor and the
whole branch as the successor body (provided the sub-terms themselves
render). -/
theorem match_to_string_spec (dn : DefNames) (cond zero succ : Term)
    (cs zs : String) (hc : cond.to_string dn = some cs)
    (hz : zero.to_string dn = some zs) :
    (∀ nam bod bs, succ = Term.lam nam bod → bod.to_string dn = some bs →
      (Term.mtch cond zero succ).to_string dn =
        some ("match " ++ cs ++ " \x7b 0: " ++ zs ++ "; 1+" ++
          nam.getD "*" ++ ": " ++ bs ++ " \x7d")) ∧
    ((∀ nam bod, succ ≠ Term.lam nam bod) →
      ∀ ss, succ.to_string dn = some ss →
        (Term.mtch cond zero succ).to_string dn =
          some ("match " ++ cs ++ " \x7b 0: " ++ zs ++ "; 1+*: " ++
            ss ++ " \x7d")) := by
  constructor
  · rintro nam bod bs rfl hb
    simp [Term.to_string, hc, hz, hb]
  · intro hne ss hs
    cases succ <;>
      first
        | exact absurd rfl (hne _ _)
        | simp_all [Term.to_string]

/-- Witness for C8: a `Match` whose successor branch is the non-`Lam`
term `Num 7` renders with an anonymous predecessor. -/
theorem match_to_string_spec_witness :
    (Term.mtch (Term.var "n") (Term.num 0) (Term.num 7)).to_string
        DefNames.new =
      some "match n \x7b 0: 0; 1+*: 7 \x7d" := by
  have h := (match_to_string_spec DefNames.new (Term.var "n") (Term.num 0)
    (Term.num 7) "n" "0" rfl rfl).2 (by intro nam bod hne; cases hne) "7" rfl
  simpa using h

lemma consistent_new : DefNames.Consistent DefNames.new := by
  constructor <;> intro n i h <;> simp [DefNames.new] at h

lemma consistent_insert (d : DefNames) (nm : String)
    (hd : d.Consistent) : ((d.insert nm).2).Consistent := by
  obtain ⟨hrt, hlt⟩ := hd
  constructor
  · intro n i h
    have h' : (if n = nm then some d.id_count else d.name_to_id n) =
        some i := h
    show (if i = d.id_count then some nm else d.id_to_name i) = some n
    by_cases hn : n = nm
    · rw [if_pos hn] at h'
      have hi : d.id_count = i := by injection h'
      rw [if_pos hi.symm, hn]
    · rw [if_neg hn] at h'
      have hi : i < d.id_count := hlt n i h'
      rw [if_neg (Nat.ne_of_lt hi)]
      exact hrt n i h'
  · intro n i h
    have h' : (if n = nm then some d.id_count else d.name_to_id n) =
        some i := h
    show i < d.id_count + 1
    by_cases hn : n = nm
    · rw [if_pos hn] at h'
      have hi : d.id_count = i := by injection h'
      omega
    · rw [if_neg hn] at h'
      exact Nat.lt_succ_of_lt (hlt n i h')

lemma consistent_remove (d : DefNames) (j : Nat)
    (hd : d.Consistent) : ((d.remove j).2).Consistent := by
  obtain ⟨hrt, hlt⟩ := hd
  unfold DefNames.remove
  cases hj : d.id_to_name j with
  | none => exact ⟨hrt, hlt⟩
  | some nam =>
    constructor
    · intro n i h
      simp only at h ⊢
      by_cases hn : n = nam
      · rw [if_pos hn] at h
        exact absurd h (by simp)
      · rw [if_neg hn] at h
        have hback := hrt n i h
        have hij : i ≠ j := by
          intro hij
          rw [hij, hj] at hback
          exact hn (by injection hback with hh; exact hh.symm)
        rw [if_neg hij]
        exact hback
    · intro n i h
      simp only at h
      by_cases hn : n = nam
      · rw [if_pos hn] at h
        exact absurd h (by simp)
      · rw [if_neg hn] at h
        exact hlt n i h

lemma reachable_consistent (d : DefNames) (hd : d.Reachable) :
    d.Consistent := by
  induction hd with
  | new => exact consistent_new
  | insert d n _ ih => exact consistent_insert d n ih
  | remove d i _ ih => exact consistent_remove d i ih

/-- C4 counterexample: after inserting the name `"a"` twice into a
fresh registry, id 0 is present in the id→name direction with name
`"a"`, but the name→id entry for `"a"` points to id 1 — so the claimed
id→name-direction roundtrip (registry as a bijection) fails at a
reachable registry. -/
theorem id_to_name_roundtrip_fails :
    ¬ (∀ d : DefNames, d.Reachable → ∀ i n,
        d.id_to_name i = some n → d.name_to_id n = some i) := by
  intro hcl
  have hr : DefNames.Reachable (((DefNames.new.insert "a").2).insert "a").2 :=
    (DefNames.Reachable.new.insert DefNames.new "a").insert _ "a"
  have h0 : ((((DefNames.new.insert "a").2).insert "a").2).id_to_name 0 =
      some "a" := by
    simp [DefNames.insert, DefNames.new]
  have h1 := hcl _ hr 0 "a" h0
  simp [DefNames.insert, DefNames.new] at h1

/-- C4 (amended): for every registry reachable from a fresh registry by
insert and remove operations, every name present in the name→id
direction maps to a `DefId` whose id→name entry maps back to that same
name; the converse direction can fail for stale ids shadowed by a
duplicate insert. -/
theorem reachable_name_to_id_roundtrip (d : DefNames) (hd : d.Reachable)
    (n : String) (i : Nat) (h : d.name_to_id n = some i) :
    d.id_to_name i = some n :=
  (reachable_consistent d hd).1 n i h

/-- Witness for C4 (amended) on the registry obtained by one insert of
`"a"`. -/
theorem reachable_name_to_id_roundtrip_witness :
    ((DefNames.new.insert "a").2).name_to_id "a" = some 0 ∧
      ((DefNames.new.insert "a").2).id_to_name 0 = some "a" :=
  ⟨by simp [DefNames.insert, DefNames.new],
    reachable_name_to_id_roundtrip _
      (DefNames.Reachable.new.insert DefNames.new "a") "a" 0
      (by simp [DefNames.insert, DefNames.new])⟩

/-- C5: inserting the same name twice into any registry returns two
distinct ids; afterwards `def_id` resolves the name to the newer id
while `name` still resolves the older id to the name — and it still
does so even after the newer id is removed. -/
theorem insert_twice_spec (d : DefNames) (n : String) :
    (d.insert n).1 ≠ ((d.insert n).2.insert n).1 ∧
    ((d.insert n).2.insert n).2.def_id n =
      some ((d.insert n).2.insert n).1 ∧
    ((d.insert n).2.insert n).2.name (d.insert n).1 = some n ∧
    ((((d.insert n).2.insert n).2.remove
        ((d.insert n).2.insert n).1).2.name (d.insert n).1 = some n) := by
  refine ⟨?_, ?_, ?_, ?_⟩ <;>
    simp [DefNames.insert, DefNames.def_id, DefNames.name, DefNames.remove]

/-- C10: after inserting name `n` twice (older id `i1`, newer id `i2`),
`remove i1` returns `some n` and deletes the name→id entry for `n`, so
`def_id n` is `none` afterwards even though `name i2` still resolves to
`n`. -/
theorem remove_older_spec (d : DefNames) (n : String) :
    ((((d.insert n).2.insert n).2.remove (d.insert n).1).1 = some n) ∧
    ((((d.insert n).2.insert n).2.remove (d.insert n).1).2.def_id n =
      none) ∧
    ((((d.insert n).2.insert n).2.remove (d.insert n).1).2.name
      ((d.insert n).2.insert n).1 = some n) := by
  refine ⟨?_, ?_, ?_⟩ <;>
    simp [DefNames.insert, DefNames.def_id, DefNames.name, DefNames.remove]

end Bend
